import Mathlib

/-!
# Black-Scholes options pricer and P&L scenario grid: shallow embedding

Shallow embedding of the pricing and scenario-grid engine of `app.py`:
the Black-Scholes valuation functions `black_scholes_call` /
`black_scholes_put`, the Greeks computation `calculate_greeks`, the
(spot, volatility) scenario grid with its P&L / price matrices, the
breakeven extraction and the summary statistics.  Floating-point
arithmetic is idealised as real arithmetic; `scipy.stats.norm.cdf` and
`norm.pdf` are the standard normal CDF `Phi` and PDF `gauss`, realised
as Lebesgue integrals of the Gaussian density.
-/

open MeasureTheory Set

noncomputable section

namespace BSApp

/-- Standard normal probability density (`scipy.stats.norm.pdf`). -/
def gauss (t : ℝ) : ℝ := Real.exp (-(1/2 : ℝ) * t ^ 2) / Real.sqrt (2 * Real.pi)

/-- Standard normal cumulative distribution function (`scipy.stats.norm.cdf`). -/
def Phi (x : ℝ) : ℝ := ∫ t in Iic x, gauss t

/-- The intermediate `d1` computed identically (same expression text) in
`black_scholes_call`, `black_scholes_put` and `calculate_greeks`. -/
def d1 (S K T r sigma : ℝ) : ℝ :=
  (Real.log (S / K) + (r + 0.5 * sigma ^ 2) * T) / (sigma * Real.sqrt T)

/-- The intermediate `d2 = d1 - sigma * np.sqrt(T)`. -/
def d2 (S K T r sigma : ℝ) : ℝ := d1 S K T r sigma - sigma * Real.sqrt T

/-- `black_scholes_call(S, K, T, r, sigma)` from `app.py` lines 10-16. -/
def black_scholes_call (S K T r sigma : ℝ) : ℝ :=
  let d1 := (Real.log (S / K) + (r + 0.5 * sigma ^ 2) * T) / (sigma * Real.sqrt T)
  let d2 := d1 - sigma * Real.sqrt T
  S * Phi d1 - K * Real.exp (-r * T) * Phi d2

/-- `black_scholes_put(S, K, T, r, sigma)` from `app.py` lines 18-24. -/
def black_scholes_put (S K T r sigma : ℝ) : ℝ :=
  let d1 := (Real.log (S / K) + (r + 0.5 * sigma ^ 2) * T) / (sigma * Real.sqrt T)
  let d2 := d1 - sigma * Real.sqrt T
  K * Real.exp (-r * T) * Phi (-d2) - S * Phi (-d1)

/-- Result record of `calculate_greeks` (the returned dict). -/
structure Greeks where
  delta : ℝ
  gamma : ℝ
  theta : ℝ
  vega : ℝ
  rho : ℝ

/-- `calculate_greeks(S, K, T, r, sigma, option_type)` from `app.py` lines 26-57.
The branches test `option_type == 'call'`; every other string takes the put
branch, exactly as in the source. -/
def calculate_greeks (S K T r sigma : ℝ) (option_type : String) : Greeks :=
  let d1 := (Real.log (S / K) + (r + 0.5 * sigma ^ 2) * T) / (sigma * Real.sqrt T)
  let d2 := d1 - sigma * Real.sqrt T
  { delta := if option_type = "call" then Phi d1 else Phi d1 - 1
    gamma := gauss d1 / (S * sigma * Real.sqrt T)
    theta := if option_type = "call" then
        (-S * gauss d1 * sigma / (2 * Real.sqrt T)
          - r * K * Real.exp (-r * T) * Phi d2) / 365
      else
        (-S * gauss d1 * sigma / (2 * Real.sqrt T)
          + r * K * Real.exp (-r * T) * Phi (-d2)) / 365
    vega := S * gauss d1 * Real.sqrt T / 100
    rho := if option_type = "call" then K * T * Real.exp (-r * T) * Phi d2 / 100
      else -K * T * Real.exp (-r * T) * Phi (-d2) / 100 }

/-- Application-level price dispatch, `app.py` lines 75-78: a call when
`option_type == "call"`, otherwise a put. -/
def option_price (option_type : String) (S K T r sigma : ℝ) : ℝ :=
  if option_type = "call" then black_scholes_call S K T r sigma
  else black_scholes_put S K T r sigma

/-- The domain of the partial real operations appearing inside the
Black-Scholes formula as written in the source: the division `S / K`,
`np.log` (positive argument), `np.sqrt` (nonnegative argument) and the
division by `sigma * sqrt T`.  `exp` and the normal CDF are total.
When this predicate holds, the source expression evaluates every partial
operation inside its mathematical domain and yields a well-defined real
number; when it fails, some sub-operation is applied outside its domain. -/
def bs_domain (S K T _r sigma : ℝ) : Prop :=
  K ≠ 0 ∧ 0 < S / K ∧ 0 ≤ T ∧ sigma * Real.sqrt T ≠ 0

/-- `np.linspace(a, b, n)`: `n` uniformly spaced samples from `a` to `b`
inclusive (`a + i * ((b - a) / (n - 1))`; for `n = 1` the single sample
is `a`, which the formula also yields since the `i = 0` term vanishes). -/
def linspace (a b : ℝ) (n : ℕ) : List ℝ :=
  (List.range n).map fun i : ℕ => a + (i : ℝ) * ((b - a) / ((n : ℝ) - 1))

/-- Grid spot axis, `app.py` lines 120-125:
`np.linspace(S*(1+spot_range[0]/100), S*(1+spot_range[1]/100), grid_size)`. -/
def spot_prices (S slow shigh : ℝ) (n : ℕ) : List ℝ :=
  linspace (S * (1 + slow / 100)) (S * (1 + shigh / 100)) n

/-- `vol_min = max(0.01, sigma * (1 + vol_range[0] / 100))`, `app.py` line 122. -/
def vol_min (sigma vlow : ℝ) : ℝ := max 0.01 (sigma * (1 + vlow / 100))

/-- `vol_max = sigma * (1 + vol_range[1] / 100)`, `app.py` line 123. -/
def vol_max (sigma vhigh : ℝ) : ℝ := sigma * (1 + vhigh / 100)

/-- Grid volatility axis, `app.py` line 126:
`np.linspace(vol_min, vol_max, grid_size)`. -/
def volatilities (sigma vlow vhigh : ℝ) (n : ℕ) : List ℝ :=
  linspace (vol_min sigma vlow) (vol_max sigma vhigh) n

/-- `new_price` inside the grid loop, `app.py` lines 134-137: price the
scenario `(spot, vol)` as a call when `option_type == "call"`, else a put. -/
def new_price (option_type : String) (K T r spot vol : ℝ) : ℝ :=
  if option_type = "call" then black_scholes_call spot K T r vol
  else black_scholes_put spot K T r vol

/-- `pnl` inside the grid loop, `app.py` lines 141-144:
`new_price - option_price` for a Long position, else `option_price - new_price`. -/
def pnl (position : String) (option_price new_price : ℝ) : ℝ :=
  if position = "Long" then new_price - option_price else option_price - new_price

/-- `price_matrix`, `app.py` lines 130-139: row index `i` ranges over the
volatility axis, column index `j` over the spot axis. -/
def price_matrix (option_type : String) (S K T r sigma slow shigh vlow vhigh : ℝ)
    (n : ℕ) : List (List ℝ) :=
  (volatilities sigma vlow vhigh n).map fun vol =>
    (spot_prices S slow shigh n).map fun spot => new_price option_type K T r spot vol

/-- `pnl_matrix`, `app.py` lines 129-146. -/
def pnl_matrix (option_type position : String) (S K T r sigma slow shigh vlow vhigh : ℝ)
    (n : ℕ) : List (List ℝ) :=
  (volatilities sigma vlow vhigh n).map fun vol =>
    (spot_prices S slow shigh n).map fun spot =>
      pnl position (option_price option_type S K T r sigma)
        (new_price option_type K T r spot vol)

/-- Matrix cell `m[i, j]` (out-of-range indices default to `0`, never used
with in-range hypotheses). -/
def cell (m : List (List ℝ)) (i j : ℕ) : ℝ := (m.getD i []).getD j 0

/-- `z_data` selection, `app.py` lines 149-160: the rendered matrix is the
P&L matrix, the price matrix, or the percentage-P&L matrix
`pnl_matrix / option_price * 100`, according to `heatmap_type`. -/
def z_data (heatmap_type : String) (pnl_m price_m : List (List ℝ))
    (option_price : ℝ) : List (List ℝ) :=
  if heatmap_type = "P&L" then pnl_m
  else if heatmap_type = "Option Price" then price_m
  else pnl_m.map (List.map fun x => x / option_price * 100)

/-- Breakeven extraction, `app.py` lines 205-216: scan the rows `i` (volatility
axis) and columns `j` (spot axis) of `pnl_matrix` in order; whenever
`|pnl_matrix[i, j]| < 0.01` append `spot_prices[j]` to `breakeven_spots` and
`volatilities[i] * 100` to `breakeven_vols`.  The two parallel lists are
embedded as the single list of their pairs. -/
def breakeven_points (option_type position : String)
    (S K T r sigma slow shigh vlow vhigh : ℝ) (n : ℕ) : List (ℝ × ℝ) :=
  (List.range n).flatMap fun i =>
    ((List.range n).filter fun j =>
        decide (|cell (pnl_matrix option_type position S K T r sigma slow shigh vlow vhigh n) i j|
          < 0.01)).map fun j =>
      ((spot_prices S slow shigh n).getD j 0,
        (volatilities sigma vlow vhigh n).getD i 0 * 100)

/-- All entries of a matrix in row-major order (the element order of the
`numpy` reductions `np.max`, `np.min`, `np.sum`, `np.mean`, `np.std`). -/
def cellsOf (m : List (List ℝ)) : List ℝ := m.flatten

/-- `np.max` of a nonempty list (junk value `0` on the empty list, where
`numpy` would raise). -/
def maxList : List ℝ → ℝ
  | [] => 0
  | a :: t => t.foldl max a

/-- `np.min` of a nonempty list (junk value `0` on the empty list). -/
def minList : List ℝ → ℝ
  | [] => 0
  | a :: t => t.foldl min a

/-- `max_profit = np.max(pnl_matrix)`, `app.py` line 292. -/
def max_profit (m : List (List ℝ)) : ℝ := maxList (cellsOf m)

/-- `max_loss = np.min(pnl_matrix)`, `app.py` line 293. -/
def max_loss (m : List (List ℝ)) : ℝ := minList (cellsOf m)

/-- `profit_prob = np.sum(pnl_matrix > 0) / pnl_matrix.size * 100`,
`app.py` line 298. -/
def profit_prob (m : List (List ℝ)) : ℝ :=
  ((cellsOf m).countP fun x => decide (0 < x)) / ((cellsOf m).length : ℝ) * 100

/-- `pnl_mean = np.mean(pnl_matrix)`, `app.py` line 307. -/
def pnl_mean (m : List (List ℝ)) : ℝ := (cellsOf m).sum / ((cellsOf m).length : ℝ)

/-- `pnl_std = np.std(pnl_matrix)`, `app.py` line 306: the population
standard deviation, the square root of the mean squared deviation. -/
def pnl_std (m : List (List ℝ)) : ℝ :=
  Real.sqrt (((cellsOf m).map fun x => (x - pnl_mean m) ^ 2).sum / ((cellsOf m).length : ℝ))

/-- `sharpe_approx`, `app.py` lines 308-311: `pnl_mean / pnl_std` when
`pnl_std > 0`, else `0`. -/
def sharpe_approx (m : List (List ℝ)) : ℝ :=
  if 0 < pnl_std m then pnl_mean m / pnl_std m else 0

/-! ### Elementary facts about `linspace`, matrix cells and list extrema -/

lemma length_linspace (a b : ℝ) (n : ℕ) : (linspace a b n).length = n := by
  simp [linspace]

lemma getD_linspace (a b : ℝ) {n i : ℕ} (h : i < n) :
    (linspace a b n).getD i 0 = a + i * ((b - a) / ((n : ℝ) - 1)) := by
  simp [linspace, List.getD_eq_getElem?_getD, List.getElem?_map, List.getElem?_range h]

/-- Sampled `linspace` values are strictly increasing as soon as `a < b`. -/
lemma chain'_lt_linspace {a b : ℝ} (h : a < b) (n : ℕ) :
    (linspace a b n).Chain' (· < ·) := by
  unfold linspace
  rw [List.chain'_map]
  cases n with
  | zero => simp
  | succ k =>
    rw [List.chain'_range_succ]
    intro m hm
    have hk : (1 : ℝ) ≤ (k : ℝ) := by
      have hk' : 1 ≤ k := Nat.one_le_iff_ne_zero.mpr (by omega)
      exact_mod_cast hk'
    have hden : (0 : ℝ) < ((k + 1 : ℕ) : ℝ) - 1 := by push_cast; linarith
    have hstep : 0 < (b - a) / (((k + 1 : ℕ) : ℝ) - 1) := div_pos (sub_pos.mpr h) hden
    have hmm : (m : ℝ) < ((m + 1 : ℕ) : ℝ) := by push_cast; linarith
    have hmul := mul_lt_mul_of_pos_right hmm hstep
    linarith

lemma getD_map_of_lt {α β : Type} (f : α → β) (l : List α) (d : β) (d' : α) {i : ℕ}
    (h : i < l.length) : (l.map f).getD i d = f (l.getD i d') := by
  rw [List.getD_eq_getElem?_getD, List.getElem?_map, List.getElem?_eq_getElem h,
    List.getD_eq_getElem?_getD, List.getElem?_eq_getElem h]
  rfl

/-- Extracting a cell of a matrix built by mapping a function over a row list
and a column list. -/
lemma cell_map_map (f : ℝ → ℝ → ℝ) (rows cols : List ℝ) {i j : ℕ}
    (hi : i < rows.length) (hj : j < cols.length) :
    cell (rows.map fun a => cols.map fun b => f a b) i j
      = f (rows.getD i 0) (cols.getD j 0) := by
  unfold cell
  rw [getD_map_of_lt _ rows [] 0 hi, getD_map_of_lt _ cols 0 0 hj]

lemma foldl_max_mem (t : List ℝ) (a : ℝ) : t.foldl max a ∈ a :: t := by
  induction t generalizing a with
  | nil => simp
  | cons b t ih =>
    have h := ih (max a b)
    rw [List.foldl_cons]
    rcases List.mem_cons.mp h with h1 | h1
    · rcases max_choice a b with h2 | h2 <;> rw [h1, h2]
      · exact List.mem_cons_self _ _
      · exact List.mem_cons_of_mem _ (List.mem_cons_self _ _)
    · exact List.mem_cons_of_mem _ (List.mem_cons_of_mem _ h1)

lemma le_foldl_max (t : List ℝ) (a : ℝ) :
    a ≤ t.foldl max a ∧ ∀ x ∈ t, x ≤ t.foldl max a := by
  induction t generalizing a with
  | nil => simp
  | cons b t ih =>
    obtain ⟨h1, h2⟩ := ih (max a b)
    rw [List.foldl_cons]
    refine ⟨le_trans (le_max_left a b) h1, ?_⟩
    intro x hx
    rcases List.mem_cons.mp hx with rfl | hx
    · exact le_trans (le_max_right _ _) h1
    · exact h2 x hx

lemma foldl_min_mem (t : List ℝ) (a : ℝ) : t.foldl min a ∈ a :: t := by
  induction t generalizing a with
  | nil => simp
  | cons b t ih =>
    have h := ih (min a b)
    rw [List.foldl_cons]
    rcases List.mem_cons.mp h with h1 | h1
    · rcases min_choice a b with h2 | h2 <;> rw [h1, h2]
      · exact List.mem_cons_self _ _
      · exact List.mem_cons_of_mem _ (List.mem_cons_self _ _)
    · exact List.mem_cons_of_mem _ (List.mem_cons_of_mem _ h1)

lemma foldl_min_le (t : List ℝ) (a : ℝ) :
    t.foldl min a ≤ a ∧ ∀ x ∈ t, t.foldl min a ≤ x := by
  induction t generalizing a with
  | nil => simp
  | cons b t ih =>
    obtain ⟨h1, h2⟩ := ih (min a b)
    rw [List.foldl_cons]
    refine ⟨le_trans h1 (min_le_left a b), ?_⟩
    intro x hx
    rcases List.mem_cons.mp hx with rfl | hx
    · exact le_trans h1 (min_le_right _ _)
    · exact h2 x hx

lemma maxList_mem {l : List ℝ} (h : l ≠ []) : maxList l ∈ l := by
  cases l with
  | nil => exact absurd rfl h
  | cons a t => exact foldl_max_mem t a

lemma le_maxList {l : List ℝ} {x : ℝ} (hx : x ∈ l) : x ≤ maxList l := by
  cases l with
  | nil => simp at hx
  | cons a t =>
    rcases List.mem_cons.mp hx with rfl | h
    · exact (le_foldl_max t x).1
    · exact (le_foldl_max t a).2 x h

lemma minList_mem {l : List ℝ} (h : l ≠ []) : minList l ∈ l := by
  cases l with
  | nil => exact absurd rfl h
  | cons a t => exact foldl_min_mem t a

lemma minList_le {l : List ℝ} {x : ℝ} (hx : x ∈ l) : minList l ≤ x := by
  cases l with
  | nil => simp at hx
  | cons a t =>
    rcases List.mem_cons.mp hx with rfl | h
    · exact (foldl_min_le t x).1
    · exact (foldl_min_le t a).2 x h

lemma length_volatilities (sigma vlow vhigh : ℝ) (n : ℕ) :
    (volatilities sigma vlow vhigh n).length = n := length_linspace _ _ _

lemma length_spot_prices (S slow shigh : ℝ) (n : ℕ) :
    (spot_prices S slow shigh n).length = n := length_linspace _ _ _

/-- The `(i, j)` cell of `price_matrix` is the scenario price at the `j`-th
spot sample and `i`-th volatility sample. -/
lemma cell_price_matrix (option_type : String) (S K T r sigma slow shigh vlow vhigh : ℝ)
    {n i j : ℕ} (hi : i < n) (hj : j < n) :
    cell (price_matrix option_type S K T r sigma slow shigh vlow vhigh n) i j
      = new_price option_type K T r ((spot_prices S slow shigh n).getD j 0)
          ((volatilities sigma vlow vhigh n).getD i 0) := by
  have hv : i < (volatilities sigma vlow vhigh n).length := by
    rw [length_volatilities]; exact hi
  have hs : j < (spot_prices S slow shigh n).length := by
    rw [length_spot_prices]; exact hj
  exact cell_map_map (fun vol spot => new_price option_type K T r spot vol) _ _ hv hs

/-- The `(i, j)` cell of `pnl_matrix` is the position-signed difference of the
scenario price and the anchor price. -/
lemma cell_pnl_matrix (option_type position : String)
    (S K T r sigma slow shigh vlow vhigh : ℝ) {n i j : ℕ} (hi : i < n) (hj : j < n) :
    cell (pnl_matrix option_type position S K T r sigma slow shigh vlow vhigh n) i j
      = pnl position (option_price option_type S K T r sigma)
          (new_price option_type K T r ((spot_prices S slow shigh n).getD j 0)
            ((volatilities sigma vlow vhigh n).getD i 0)) := by
  have hv : i < (volatilities sigma vlow vhigh n).length := by
    rw [length_volatilities]; exact hi
  have hs : j < (spot_prices S slow shigh n).length := by
    rw [length_spot_prices]; exact hj
  exact cell_map_map
    (fun vol spot => pnl position (option_price option_type S K T r sigma)
      (new_price option_type K T r spot vol)) _ _ hv hs

/-! ### Analytic facts about the standard normal distribution -/

lemma gauss_pos (t : ℝ) : 0 < gauss t :=
  div_pos (Real.exp_pos _) (Real.sqrt_pos.mpr (by positivity))

lemma gauss_neg (t : ℝ) : gauss (-t) = gauss t := by
  simp [gauss, neg_sq]

lemma integrable_gauss : Integrable gauss := by
  have h : Integrable fun t : ℝ => Real.exp (-(1/2 : ℝ) * t ^ 2) :=
    integrable_exp_neg_mul_sq (by norm_num)
  exact h.div_const _

lemma integral_gauss : ∫ t : ℝ, gauss t = 1 := by
  have h : (∫ t : ℝ, gauss t)
      = (∫ t : ℝ, Real.exp (-(1/2 : ℝ) * t ^ 2)) / Real.sqrt (2 * Real.pi) := by
    simp only [gauss]
    exact integral_div _ _
  rw [h, integral_gaussian, show Real.pi / (1/2 : ℝ) = 2 * Real.pi by ring]
  exact div_self (Real.sqrt_ne_zero'.mpr (by positivity))

/-- Symmetry of the standard normal CDF: `Φ(x) + Φ(-x) = 1`. -/
lemma Phi_add_Phi_neg (x : ℝ) : Phi x + Phi (-x) = 1 := by
  have h1 : Phi (-x) = ∫ t in Ioi x, gauss t := by
    have h2 : Phi (-x) = ∫ t in Iic (-x), gauss (-t) := by
      simp only [Phi]
      exact integral_congr_ae (Filter.Eventually.of_forall fun t => (gauss_neg t).symm)
    rw [h2, integral_comp_neg_Iic, neg_neg]
  rw [Phi, h1, intervalIntegral.integral_Iic_add_Ioi integrable_gauss.integrableOn
    integrable_gauss.integrableOn, integral_gauss]

lemma Phi_strictMono : StrictMono Phi := by
  intro x y hxy
  have h1 : Phi y - Phi x = ∫ t in x..y, gauss t :=
    intervalIntegral.integral_Iic_sub_Iic integrable_gauss.integrableOn
      integrable_gauss.integrableOn
  have h2 : 0 < ∫ t in x..y, gauss t :=
    intervalIntegral.intervalIntegral_pos_of_pos (integrable_gauss.intervalIntegrable) gauss_pos hxy
  linarith

/-! ### Claim theorems -/

/-- C1: for every `S>0`, `K>0`, `T>0`, `r≥0`, `sigma>0`, the pricing functions
return the closed-form Black-Scholes values: with
`d1 = (ln(S/K) + (r + 0.5·sigma²)·T) / (sigma·√T)` and `d2 = d1 - sigma·√T`,
the call price is `S·Φ(d1) - K·e^(-rT)·Φ(d2)` and the put price is
`K·e^(-rT)·Φ(-d2) - S·Φ(-d1)`, `Φ` being the standard normal CDF. -/
theorem C1_closed_form_price (S K T r sigma : ℝ)
    (hS : 0 < S) (hK : 0 < K) (hT : 0 < T) (hr : 0 ≤ r) (hsigma : 0 < sigma) :
    black_scholes_call S K T r sigma
        = S * Phi (d1 S K T r sigma) - K * Real.exp (-r * T) * Phi (d2 S K T r sigma)
      ∧ black_scholes_put S K T r sigma
        = K * Real.exp (-r * T) * Phi (-(d2 S K T r sigma)) - S * Phi (-(d1 S K T r sigma)) :=
  ⟨rfl, rfl⟩

theorem C1_closed_form_price_witness :
    (0 : ℝ) < 100 ∧ (0 : ℝ) ≤ 0.05 ∧
      (black_scholes_call 100 100 0.25 0.05 0.2
          = 100 * Phi (d1 100 100 0.25 0.05 0.2)
            - 100 * Real.exp (-0.05 * 0.25) * Phi (d2 100 100 0.25 0.05 0.2)
        ∧ black_scholes_put 100 100 0.25 0.05 0.2
          = 100 * Real.exp (-0.05 * 0.25) * Phi (-(d2 100 100 0.25 0.05 0.2))
            - 100 * Phi (-(d1 100 100 0.25 0.05 0.2))) :=
  ⟨by norm_num, by norm_num,
    C1_closed_form_price 100 100 0.25 0.05 0.2 (by norm_num) (by norm_num) (by norm_num)
      (by norm_num) (by norm_num)⟩

/-- C2: for every `S>0`, `K>0`, `T>0`, `r≥0`, `sigma>0`, put-call parity holds:
`call - put = S - K·e^(-rT)`.  In the real-number idealisation of the
floating-point code the identity is exact, hence within any tolerance. -/
theorem C2_put_call_parity (S K T r sigma : ℝ)
    (hS : 0 < S) (hK : 0 < K) (hT : 0 < T) (hr : 0 ≤ r) (hsigma : 0 < sigma) :
    black_scholes_call S K T r sigma - black_scholes_put S K T r sigma
      = S - K * Real.exp (-r * T) := by
  have h1 := Phi_add_Phi_neg
    ((Real.log (S / K) + (r + 0.5 * sigma ^ 2) * T) / (sigma * Real.sqrt T))
  have h2 := Phi_add_Phi_neg
    ((Real.log (S / K) + (r + 0.5 * sigma ^ 2) * T) / (sigma * Real.sqrt T)
      - sigma * Real.sqrt T)
  simp only [black_scholes_call, black_scholes_put]
  linear_combination S * h1 - K * Real.exp (-r * T) * h2

theorem C2_put_call_parity_witness :
    (0 : ℝ) < 1 ∧
      black_scholes_call 1 1 1 0 1 - black_scholes_put 1 1 1 0 1
        = 1 - 1 * Real.exp (-0 * 1) :=
  ⟨by norm_num,
    C2_put_call_parity 1 1 1 0 1 (by norm_num) (by norm_num) (by norm_num) (by norm_num)
      (by norm_num)⟩

/-- C10: every `option_type` string other than `"call"` (not only `"put"`)
yields the put Greeks (`delta = Φ(d1) - 1`, the put theta and rho), and the
application-level dispatch and the grid-loop dispatch likewise price the
option as a put: each branch tests only equality with `"call"`. -/
theorem C10_non_call_is_put (S K T r sigma spot vol : ℝ) (ot : String)
    (h : ot ≠ "call") :
    calculate_greeks S K T r sigma ot = calculate_greeks S K T r sigma "put"
      ∧ (calculate_greeks S K T r sigma ot).delta = Phi (d1 S K T r sigma) - 1
      ∧ (calculate_greeks S K T r sigma ot).theta
          = (-S * gauss (d1 S K T r sigma) * sigma / (2 * Real.sqrt T)
            + r * K * Real.exp (-r * T) * Phi (-(d2 S K T r sigma))) / 365
      ∧ (calculate_greeks S K T r sigma ot).rho
          = -K * T * Real.exp (-r * T) * Phi (-(d2 S K T r sigma)) / 100
      ∧ option_price ot S K T r sigma = black_scholes_put S K T r sigma
      ∧ new_price ot K T r spot vol = black_scholes_put spot K T r vol := by
  have hput : ("put" : String) ≠ "call" := by decide
  refine ⟨?_, ?_, ?_, ?_, ?_, ?_⟩ <;>
    simp [calculate_greeks, option_price, new_price, d1, d2, h, hput]

theorem C10_non_call_is_put_witness :
    calculate_greeks 1 1 1 0 1 "banana" = calculate_greeks 1 1 1 0 1 "put"
      ∧ (calculate_greeks 1 1 1 0 1 "banana").delta = Phi (d1 1 1 1 0 1) - 1
      ∧ (calculate_greeks 1 1 1 0 1 "banana").theta
          = (-1 * gauss (d1 1 1 1 0 1) * 1 / (2 * Real.sqrt 1)
            + 0 * 1 * Real.exp (-0 * 1) * Phi (-(d2 1 1 1 0 1))) / 365
      ∧ (calculate_greeks 1 1 1 0 1 "banana").rho
          = -1 * 1 * Real.exp (-0 * 1) * Phi (-(d2 1 1 1 0 1)) / 100
      ∧ option_price "banana" 1 1 1 0 1 = black_scholes_put 1 1 1 0 1
      ∧ new_price "banana" 1 1 0 1 1 = black_scholes_put 1 1 1 0 1 :=
  C10_non_call_is_put 1 1 1 0 1 1 1 "banana" (by decide)

/-- C9 (amended): the pricing functions contain no clamp or guard; with the
other inputs valid, `sigma = 0`, `T ≤ 0`, `S ≤ 0` or `K ≤ 0` each place a
partial operation of the formula (log of a nonpositive number, square root of
a negative number, or a division by zero) outside its domain, so no real
result is defined there.  However, for `sigma < 0` (with `S, K, T > 0`) every
operation is evaluated inside its domain and a numeric value is returned, so
the function does not fail on all of `sigma ≤ 0`. -/
theorem C9_amended_domain (S K T r sigma : ℝ) :
    ¬bs_domain S K T r 0
      ∧ (T ≤ 0 → ¬bs_domain S K T r sigma)
      ∧ (S ≤ 0 → 0 < K → ¬bs_domain S K T r sigma)
      ∧ (K ≤ 0 → 0 < S → ¬bs_domain S K T r sigma)
      ∧ (0 < S → 0 < K → 0 < T → sigma ≠ 0 → bs_domain S K T r sigma) := by
  refine ⟨?_, ?_, ?_, ?_, ?_⟩
  · rintro ⟨-, -, -, h4⟩
    exact h4 (zero_mul _)
  · rintro hT ⟨-, -, h3, h4⟩
    have hT0 : T = 0 := le_antisymm hT h3
    subst hT0
    exact h4 (by simp)
  · rintro hS hK ⟨-, h2, -, -⟩
    have : S / K ≤ 0 := div_nonpos_iff.mpr (Or.inr ⟨hS, hK.le⟩)
    linarith
  · rintro hK hS ⟨h1, h2, -, -⟩
    rcases lt_or_eq_of_le hK with hK' | hK'
    · have : S / K < 0 := div_neg_of_pos_of_neg hS hK'
      linarith
    · exact h1 hK'
  · intro hS hK hT hsig
    exact ⟨ne_of_gt hK, div_pos hS hK, hT.le,
      mul_ne_zero hsig (ne_of_gt (Real.sqrt_pos.mpr hT))⟩

theorem C9_amended_domain_witness :
    ¬bs_domain 1 1 1 0 0 ∧ ¬bs_domain 1 1 0 0 1 ∧ ¬bs_domain (-1) 1 1 0 1
      ∧ ¬bs_domain 1 (-1) 1 0 1 ∧ bs_domain 1 1 1 0 1 :=
  ⟨(C9_amended_domain 1 1 1 0 0).1,
    (C9_amended_domain 1 1 0 0 1).2.1 (by norm_num),
    (C9_amended_domain (-1) 1 1 0 1).2.2.1 (by norm_num) (by norm_num),
    (C9_amended_domain 1 (-1) 1 0 1).2.2.2.1 (by norm_num) (by norm_num),
    (C9_amended_domain 1 1 1 0 1).2.2.2.2 (by norm_num) (by norm_num) (by norm_num)
      (by norm_num)⟩

/-- C9 counterexample: at `S = K = T = 1`, `r = 0`, `sigma = -1` we have
`sigma ≤ 0`, yet every partial operation of the pricing formula is evaluated
inside its mathematical domain (`bs_domain` holds), so the code returns a
well-defined numeric result rather than failing with a domain error. -/
theorem C9_counterexample_negative_sigma :
    (-1 : ℝ) ≤ 0 ∧ bs_domain 1 1 1 0 (-1) := by
  refine ⟨by norm_num, one_ne_zero, by norm_num, by norm_num, ?_⟩
  rw [Real.sqrt_one]
  norm_num

/-- C3 (amended): the volatility axis is `N` uniformly spaced `linspace`
samples from `max(0.01, sigma·(1+lowPct/100))` to `sigma·(1+highPct/100)`,
the lower bound floored at `0.01`; the sampled sequence has length `N` and is
strictly increasing provided the floored lower bound is strictly below the
upper bound.  (When the floor `0.01` reaches or exceeds
`sigma·(1+highPct/100)` — or when `lowPct = highPct` — the sequence is
constant or strictly decreasing, so `lowPct ≤ highPct` alone does not make it
strictly increasing.) -/
theorem C3_amended_vol_axis (sigma vlow vhigh : ℝ) (n : ℕ) :
    volatilities sigma vlow vhigh n
        = linspace (max 0.01 (sigma * (1 + vlow / 100))) (sigma * (1 + vhigh / 100)) n
      ∧ (volatilities sigma vlow vhigh n).length = n
      ∧ (max 0.01 (sigma * (1 + vlow / 100)) < sigma * (1 + vhigh / 100) →
          (volatilities sigma vlow vhigh n).Chain' (· < ·)) :=
  ⟨rfl, length_volatilities _ _ _ _, fun h => chain'_lt_linspace h n⟩

theorem C3_amended_vol_axis_witness :
    (volatilities 1 0 100 3).Chain' (· < ·) :=
  (C3_amended_vol_axis 1 0 100 3).2.2 (by rw [max_lt_iff]; norm_num)

/-- C3 counterexample: `sigma = 0.02 > 0`, `lowPct = -70 ≤ highPct = -60`,
`N = 2`.  The floored lower bound is `max(0.01, 0.006) = 0.01` while the
upper bound is `0.02·0.4 = 0.008 < 0.01`, so the sampled volatility sequence
is `[0.01, 0.008]`, which is not strictly increasing — refuting the claim
that the axis is strictly increasing for every `lowPct ≤ highPct`. -/
theorem C3_counterexample_decreasing_axis :
    (0 : ℝ) < 0.02 ∧ (-70 : ℝ) ≤ -60
      ∧ ¬ (volatilities 0.02 (-70) (-60) 2).Chain' (· < ·) := by
  refine ⟨by norm_num, by norm_num, ?_⟩
  have h1 : vol_min 0.02 (-70) = 0.01 := by
    unfold vol_min
    rw [max_eq_left (by norm_num : (0.02 : ℝ) * (1 + (-70) / 100) ≤ 0.01)]
  have h2 : vol_max 0.02 (-60) = 0.008 := by
    unfold vol_max; norm_num
  have h3 : volatilities 0.02 (-70) (-60) 2 = [0.01, 0.008] := by
    unfold volatilities
    rw [h1, h2]
    unfold linspace
    rw [show List.range 2 = [0, 1] from rfl]
    simp only [List.map_cons, List.map_nil, Nat.cast_zero, Nat.cast_one]
    norm_num
  rw [h3]
  simp only [List.chain'_cons, List.chain'_singleton, and_true]
  norm_num

/-- C4: `pnl[i,j] = price[i,j] - anchor` when the position is `"Long"` and
`anchor - price[i,j]` when it is `"Short"`; consequently the `"Short"` grid
is the cellwise negation of the `"Long"` grid at identical parameters. -/
theorem C4_pnl_sign (option_type position : String)
    (S K T r sigma slow shigh vlow vhigh : ℝ) {n i j : ℕ} (hi : i < n) (hj : j < n) :
    (position = "Long" →
        cell (pnl_matrix option_type position S K T r sigma slow shigh vlow vhigh n) i j
          = cell (price_matrix option_type S K T r sigma slow shigh vlow vhigh n) i j
            - option_price option_type S K T r sigma)
      ∧ (position = "Short" →
        cell (pnl_matrix option_type position S K T r sigma slow shigh vlow vhigh n) i j
          = option_price option_type S K T r sigma
            - cell (price_matrix option_type S K T r sigma slow shigh vlow vhigh n) i j)
      ∧ cell (pnl_matrix option_type "Short" S K T r sigma slow shigh vlow vhigh n) i j
          = -cell (pnl_matrix option_type "Long" S K T r sigma slow shigh vlow vhigh n) i j := by
  have hp := cell_price_matrix option_type S K T r sigma slow shigh vlow vhigh hi hj
  have hlong := cell_pnl_matrix option_type "Long" S K T r sigma slow shigh vlow vhigh hi hj
  have hshort := cell_pnl_matrix option_type "Short" S K T r sigma slow shigh vlow vhigh hi hj
  refine ⟨?_, ?_, ?_⟩
  · rintro rfl
    rw [hlong, hp, pnl, if_pos rfl]
  · rintro rfl
    rw [hshort, hp, pnl, if_neg (by decide : ¬("Short" : String) = "Long")]
  · rw [hshort, hlong, pnl, pnl, if_pos rfl,
      if_neg (by decide : ¬("Short" : String) = "Long")]
    ring

theorem C4_pnl_sign_witness :
    cell (pnl_matrix "call" "Short" 1 1 1 0 1 0 0 0 0 1) 0 0
      = -cell (pnl_matrix "call" "Long" 1 1 1 0 1 0 0 0 0 1) 0 0 :=
  (C4_pnl_sign "call" "Long" 1 1 1 0 1 0 0 0 0 (by norm_num) (by norm_num)).2.2

/-- C5 (amended): breakeven extraction scans the pnl matrix in row-major
order and collects exactly the grid points `(i, j)` with
`|pnl[i,j]| < 0.01` — a fixed absolute tolerance of `0.01` currency units —
returning for each the pair `(spot_j, 100 · vol_i)` (the volatility
coordinate scaled to percentage points, as the source stores
`vol * 100`); the sequence is empty exactly when no cell satisfies the
tolerance. -/
theorem C5_amended_breakeven (option_type position : String)
    (S K T r sigma slow shigh vlow vhigh : ℝ) (n : ℕ) :
    (∀ p : ℝ × ℝ,
        p ∈ breakeven_points option_type position S K T r sigma slow shigh vlow vhigh n
      ↔ ∃ i j : ℕ, i < n ∧ j < n
          ∧ |cell (pnl_matrix option_type position S K T r sigma slow shigh vlow vhigh n) i j|
              < 0.01
          ∧ p = ((spot_prices S slow shigh n).getD j 0,
              (volatilities sigma vlow vhigh n).getD i 0 * 100))
      ∧ (breakeven_points option_type position S K T r sigma slow shigh vlow vhigh n = []
        ↔ ∀ i j : ℕ, i < n → j < n →
          ¬ |cell (pnl_matrix option_type position S K T r sigma slow shigh vlow vhigh n) i j|
              < 0.01) := by
  have hmem : ∀ p : ℝ × ℝ,
      p ∈ breakeven_points option_type position S K T r sigma slow shigh vlow vhigh n
    ↔ ∃ i j : ℕ, i < n ∧ j < n
        ∧ |cell (pnl_matrix option_type position S K T r sigma slow shigh vlow vhigh n) i j|
            < 0.01
        ∧ p = ((spot_prices S slow shigh n).getD j 0,
            (volatilities sigma vlow vhigh n).getD i 0 * 100) := by
    intro p
    unfold breakeven_points
    simp only [List.mem_flatMap, List.mem_map, List.mem_filter, List.mem_range,
      decide_eq_true_eq]
    constructor
    · rintro ⟨i, hi, j, ⟨hj, habs⟩, rfl⟩
      exact ⟨i, j, hi, hj, habs, rfl⟩
    · rintro ⟨i, j, hi, hj, habs, rfl⟩
      exact ⟨i, hi, j, ⟨hj, habs⟩, rfl⟩
  refine ⟨hmem, ?_⟩
  rw [List.eq_nil_iff_forall_not_mem]
  constructor
  · intro h i j hi hj habs
    exact h _ ((hmem _).mpr ⟨i, j, hi, hj, habs, rfl⟩)
  · intro h p hp
    obtain ⟨i, j, hi, hj, habs, rfl⟩ := (hmem p).mp hp
    exact h i j hi hj habs

theorem C5_amended_breakeven_witness :
    breakeven_points "call" "Long" 1 1 1 0 1 0 0 0 0 0 = [] :=
  ((C5_amended_breakeven "call" "Long" 1 1 1 0 1 0 0 0 0 0).2).mpr
    (fun i _ hi => absurd hi (Nat.not_lt_zero i))

/-- C5 counterexample: with the anchor parameters themselves as the only grid
point (`N = 1`, all range percentages `0`, `sigma = 0.02`), the single pnl
cell is `0`, within tolerance, and the returned sequence is `[(100, 2)]`:
the second coordinate is `2` (percentage points), not the sampled volatility
`0.02` — refuting the reading that the pairs carry the volatility values of
the grid. -/
theorem C5_counterexample_vol_scaling :
    breakeven_points "call" "Long" 100 100 1 0 0.02 0 0 0 0 1 = [(100, 2)]
      ∧ volatilities 0.02 0 0 1 = [0.02]
      ∧ (2 : ℝ) ≠ 0.02 := by
  have hvol : volatilities 0.02 0 0 1 = [0.02] := by
    unfold volatilities vol_min vol_max
    rw [max_eq_right (by norm_num : (0.01 : ℝ) ≤ 0.02 * (1 + 0 / 100))]
    unfold linspace
    rw [show List.range 1 = [0] from rfl]
    simp only [List.map_cons, List.map_nil, Nat.cast_zero]
    norm_num
  have hspot : spot_prices 100 0 0 1 = [100] := by
    unfold spot_prices linspace
    rw [show List.range 1 = [0] from rfl]
    simp only [List.map_cons, List.map_nil, Nat.cast_zero]
    norm_num
  have hcell : cell (pnl_matrix "call" "Long" 100 100 1 0 0.02 0 0 0 0 1) 0 0 = 0 := by
    rw [cell_pnl_matrix "call" "Long" 100 100 1 0 0.02 0 0 0 0
      (by norm_num : 0 < 1) (by norm_num : 0 < 1)]
    rw [hvol, hspot]
    simp only [List.getD]
    rw [pnl, if_pos rfl, new_price, if_pos rfl, option_price, if_pos rfl]
    simp
  refine ⟨?_, hvol, by norm_num⟩
  unfold breakeven_points
  rw [show List.range 1 = [0] from rfl]
  simp only [List.flatMap_cons, List.flatMap_nil, List.append_nil, List.filter_cons,
    List.filter_nil, hcell, abs_zero]
  rw [if_pos (by norm_num)]
  simp only [List.map_cons, List.map_nil]
  rw [hvol, hspot]
  simp only [List.getD]
  norm_num

/-- C6: over the summarized matrix, `max_profit` is the greatest element and
`max_loss` the least; `profit_prob` is the count of strictly positive
elements over the total element count times 100; `pnl_mean` is the population
mean (`mean · count = sum`) and `pnl_std` the population standard deviation
(the nonnegative square root of the mean squared deviation from the mean). -/
theorem C6_summary_statistics (m : List (List ℝ)) (h : cellsOf m ≠ []) :
    max_profit m ∈ cellsOf m ∧ (∀ x ∈ cellsOf m, x ≤ max_profit m)
      ∧ max_loss m ∈ cellsOf m ∧ (∀ x ∈ cellsOf m, max_loss m ≤ x)
      ∧ profit_prob m
          = (((cellsOf m).countP fun x => decide (0 < x)) : ℝ)
            / ((cellsOf m).length : ℝ) * 100
      ∧ pnl_mean m * ((cellsOf m).length : ℝ) = (cellsOf m).sum
      ∧ 0 ≤ pnl_std m
      ∧ pnl_std m ^ 2
          = ((cellsOf m).map fun x => (x - pnl_mean m) ^ 2).sum
            / ((cellsOf m).length : ℝ) := by
  have hlen : ((cellsOf m).length : ℝ) ≠ 0 := by
    exact_mod_cast List.length_pos.mpr h |>.ne'
  have hvar : 0 ≤ ((cellsOf m).map fun x => (x - pnl_mean m) ^ 2).sum
      / ((cellsOf m).length : ℝ) := by
    apply div_nonneg _ (Nat.cast_nonneg _)
    apply List.sum_nonneg
    intro x hx
    obtain ⟨y, -, rfl⟩ := List.mem_map.mp hx
    exact sq_nonneg _
  refine ⟨maxList_mem h, fun x hx => le_maxList hx, minList_mem h,
    fun x hx => minList_le hx, rfl, ?_, Real.sqrt_nonneg _, ?_⟩
  · unfold pnl_mean
    exact div_mul_cancel₀ _ hlen
  · unfold pnl_std
    exact Real.sq_sqrt hvar

theorem C6_summary_statistics_witness :
    max_profit [[1, 2]] ∈ cellsOf [[1, 2]]
      ∧ pnl_mean [[1, 2]] * ((cellsOf [[1, 2]]).length : ℝ) = (cellsOf [[1, 2]]).sum := by
  have h := C6_summary_statistics [[1, 2]] (by simp [cellsOf])
  exact ⟨h.1, h.2.2.2.2.2.1⟩

/-- C7: `sharpe_approx` (the risk-reward ratio) is `pnl_mean / pnl_std` when
`pnl_std > 0` and `0` — not NaN, not an error — when `pnl_std = 0`; in
particular a nonempty matrix of all-equal values has `pnl_std = 0` and
`sharpe_approx = 0`. -/
theorem C7_risk_reward_ratio (m : List (List ℝ)) :
    (0 < pnl_std m → sharpe_approx m = pnl_mean m / pnl_std m)
      ∧ (pnl_std m = 0 → sharpe_approx m = 0)
      ∧ ∀ c : ℝ, cellsOf m ≠ [] → (∀ x ∈ cellsOf m, x = c) →
          pnl_std m = 0 ∧ sharpe_approx m = 0 := by
  have hzero : pnl_std m = 0 → sharpe_approx m = 0 := by
    intro h
    unfold sharpe_approx
    rw [if_neg (by rw [h]; exact lt_irrefl 0)]
  refine ⟨?_, hzero, ?_⟩
  · intro h
    unfold sharpe_approx
    rw [if_pos h]
  · intro c hne hall
    have hlen : ((cellsOf m).length : ℝ) ≠ 0 := by
      exact_mod_cast List.length_pos.mpr hne |>.ne'
    have hmean : pnl_mean m = c := by
      unfold pnl_mean
      rw [List.sum_eq_card_nsmul (cellsOf m) c hall, nsmul_eq_mul]
      exact mul_div_cancel_left₀ _ hlen
    have hsq : ((cellsOf m).map fun x => (x - pnl_mean m) ^ 2).sum = 0 := by
      apply List.sum_eq_zero
      intro x hx
      obtain ⟨y, hy, rfl⟩ := List.mem_map.mp hx
      rw [hall y hy, hmean, sub_self]
      ring
    have hstd : pnl_std m = 0 := by
      unfold pnl_std
      rw [hsq, zero_div, Real.sqrt_zero]
    exact ⟨hstd, hzero hstd⟩

theorem C7_risk_reward_ratio_witness :
    pnl_std [[2, 2]] = 0 ∧ sharpe_approx [[2, 2]] = 0 := by
  apply (C7_risk_reward_ratio [[2, 2]]).2.2 2 (by simp [cellsOf])
  intro x hx
  have hx' : x ∈ [(2 : ℝ), 2] := by simpa [cellsOf] using hx
  rcases List.mem_cons.mp hx' with h | h
  · exact h
  · simpa using h

/-- C8 (amended): `GridConfig.metric` (`heatmap_type`) selects only the
rendered matrix `z_data` — the pnl matrix for "P&L", the price matrix for
"Option Price", and `pnl/anchor·100` otherwise — while the downstream
breakeven and summary computations always take the pnl matrix as input,
regardless of the metric (`np.max`/`np.min`/`np.sum`/`np.std` are applied to
`pnl_matrix`, and the breakeven scan reads `pnl_matrix`, not `z_data`). -/
theorem C8_amended_metric_selection (p q : List (List ℝ)) (a : ℝ) (ht : String)
    (option_type position : String) (S K T r sigma slow shigh vlow vhigh : ℝ) (n : ℕ) :
    z_data "P&L" p q a = p
      ∧ z_data "Option Price" p q a = q
      ∧ (ht ≠ "P&L" → ht ≠ "Option Price" →
          z_data ht p q a = p.map (List.map fun x => x / a * 100))
      ∧ max_profit (pnl_matrix option_type position S K T r sigma slow shigh vlow vhigh n)
          = maxList (cellsOf (pnl_matrix option_type position S K T r sigma slow shigh vlow vhigh n))
      ∧ pnl_std (pnl_matrix option_type position S K T r sigma slow shigh vlow vhigh n)
          = Real.sqrt
              (((cellsOf (pnl_matrix option_type position S K T r sigma slow shigh vlow vhigh n)).map
                  fun x => (x - pnl_mean (pnl_matrix option_type position S K T r sigma slow shigh vlow vhigh n)) ^ 2).sum
                / ((cellsOf (pnl_matrix option_type position S K T r sigma slow shigh vlow vhigh n)).length : ℝ)) := by
  refine ⟨?_, ?_, ?_, rfl, rfl⟩
  · unfold z_data
    rw [if_pos rfl]
  · unfold z_data
    rw [if_neg (by decide : ¬("Option Price" : String) = "P&L"), if_pos rfl]
  · intro h1 h2
    unfold z_data
    rw [if_neg h1, if_neg h2]

theorem C8_amended_metric_selection_witness :
    z_data "% P&L" [[1]] [[2]] 1 = [[1]].map (List.map fun x => x / 1 * 100) :=
  (C8_amended_metric_selection [[1]] [[2]] 1 "% P&L" "call" "Long" 1 1 1 0 1 0 0 0 0
    1).2.2.1 (by decide) (by decide)

/-- C8 counterexample: with metric "Option Price" the selected matrix is the
price matrix, but the summary is still computed over the pnl matrix: at
`S = K = T = sigma = 1`, `r = 0`, all range percentages `0` and `N = 1`, the
code's `max_profit` (over `pnl_matrix`) is `0` while the maximum over the
metric-selected matrix is the call price `Φ(0.5) - Φ(-0.5) > 0` — so the
matrix feeding breakeven/summary is not determined by the metric. -/
theorem C8_counterexample_summary_ignores_metric :
    z_data "Option Price" (pnl_matrix "call" "Long" 1 1 1 0 1 0 0 0 0 1)
        (price_matrix "call" 1 1 1 0 1 0 0 0 0 1) (option_price "call" 1 1 1 0 1)
      = price_matrix "call" 1 1 1 0 1 0 0 0 0 1
      ∧ max_profit (pnl_matrix "call" "Long" 1 1 1 0 1 0 0 0 0 1) = 0
      ∧ 0 < max_profit (price_matrix "call" 1 1 1 0 1 0 0 0 0 1) := by
  have hvol : volatilities 1 0 0 1 = [1] := by
    unfold volatilities vol_min vol_max
    rw [max_eq_right (by norm_num : (0.01 : ℝ) ≤ 1 * (1 + 0 / 100))]
    unfold linspace
    rw [show List.range 1 = [0] from rfl]
    simp only [List.map_cons, List.map_nil, Nat.cast_zero]
    norm_num
  have hspot : spot_prices 1 0 0 1 = [1] := by
    unfold spot_prices linspace
    rw [show List.range 1 = [0] from rfl]
    simp only [List.map_cons, List.map_nil, Nat.cast_zero]
    norm_num
  have hpnl : pnl_matrix "call" "Long" 1 1 1 0 1 0 0 0 0 1 = [[0]] := by
    unfold pnl_matrix
    rw [hvol, hspot]
    simp only [List.map_cons, List.map_nil]
    rw [pnl, if_pos rfl, new_price, if_pos rfl, option_price, if_pos rfl, sub_self]
  have hprice : price_matrix "call" 1 1 1 0 1 0 0 0 0 1
      = [[black_scholes_call 1 1 1 0 1]] := by
    unfold price_matrix
    rw [hvol, hspot]
    simp only [List.map_cons, List.map_nil]
    rw [new_price, if_pos rfl]
  have hcallpos : 0 < black_scholes_call 1 1 1 0 1 := by
    have hd : d1 1 1 1 0 1 = 0.5 := by
      unfold d1
      rw [show ((1 : ℝ) / 1) = 1 by norm_num, Real.log_one, Real.sqrt_one]
      norm_num
    have hd2 : d2 1 1 1 0 1 = -0.5 := by
      unfold d2
      rw [hd, Real.sqrt_one]
      norm_num
    have hr : black_scholes_call 1 1 1 0 1
        = 1 * Phi (d1 1 1 1 0 1) - 1 * Real.exp (-0 * 1) * Phi (d2 1 1 1 0 1) := rfl
    have hexp : Real.exp (-0 * 1) = 1 := by
      rw [show ((-0 : ℝ) * 1) = 0 by norm_num, Real.exp_zero]
    have hmono := Phi_strictMono (show (-0.5 : ℝ) < 0.5 by norm_num)
    rw [hr, hd, hd2, hexp]
    linarith
  refine ⟨?_, ?_, ?_⟩
  · unfold z_data
    rw [if_neg (by decide : ¬("Option Price" : String) = "P&L"), if_pos rfl]
  · rw [hpnl]
    rfl
  · rw [hprice]
    unfold max_profit cellsOf maxList
    simpa using hcallpos

end BSApp

end
